import Mathlib

/-!
Shallow embedding of the AuctionLab bid-admission code: the auction service
(`placeBidHandler` and its two mutex-delimited phases) and the user service
(`checkBalanceHandler`, `updateBalanceHandler`).  Go maps guarded by mutexes
become function-valued tables inside an explicit `SystemState`; each HTTP
handler becomes a state-passing function returning its outcome and the new
state.  Monetary amounts are `float64` in the source; the handlers only add,
negate and compare them, so they are modelled as exact integers.  Wall-clock
times (`time.Time`) are modelled as integers, with `t.After(u)` becoming
`u < t`.
-/

/-- Money amount (`float64` in the source; exact integer model). -/
abbrev Money := Int

/-- Instant of time (`time.Time` in the source). -/
abbrev Instant := Int

/-- The `Auction` record of the auction service.  Fields mirror the Go struct
`Auction` exactly: there is no version counter field. -/
structure Auction where
  id : Nat
  item : String
  sellerID : Nat
  startTime : Instant
  endTime : Instant
  startBid : Money
  currentBid : Money
  buyNow : Money
deriving Repr, DecidableEq

/-- The `Bid` record of the auction service (Go struct `Bid`). -/
structure Bid where
  userID : Nat
  auctionID : Nat
  amount : Money
  timestamp : Instant
deriving Repr, DecidableEq

/-- The `User` record of the user service (Go struct `User`). -/
structure User where
  id : Nat
  name : String
  email : String
  balance : Money
deriving Repr, DecidableEq

/-- Combined mutable state of both services: the auction table `auctions`,
the per-auction bid ledger `bids` and the user table `users` (the three Go
maps; a missing key is `none` / the empty list). -/
structure SystemState where
  auctions : Nat → Option Auction
  bids : Nat → List Bid
  users : Nat → Option User

/-- Outcome of the user service `updateBalanceHandler`. -/
inductive UpdateResult where
  | ok (newBalance : Money)
  | userNotFound
  | insufficientFunds
deriving Repr, DecidableEq

/-- The user service `PUT /users/update_balance` handler: looks up the user,
rejects with `Insufficient funds` when `user.Balance + amount < 0`, otherwise
adds `amount` (possibly negative) to the stored balance.  Returns the outcome
and the updated user table. -/
def updateBalanceHandler (uid : Nat) (amount : Money) (users : Nat → Option User) :
    UpdateResult × (Nat → Option User) :=
  match users uid with
  | none => (.userNotFound, users)
  | some user =>
    if user.balance + amount < 0 then
      (.insufficientFunds, users)
    else
      let u : User := { user with balance := user.balance + amount }
      (.ok u.balance, fun k => if k = uid then some u else users k)

/-- The user service `GET /users/check_balance` handler: `none` models the
404 `User not found` reply; otherwise returns `(canBid, balance)` with
`canBid = (balance ≥ amount)`. -/
def checkBalanceHandler (uid : Nat) (amount : Money) (users : Nat → Option User) :
    Option (Bool × Money) :=
  match users uid with
  | none => none
  | some user => some (decide (amount ≤ user.balance), user.balance)

/-- Outcome of the auction service `placeBidHandler`, one constructor per
reply the handler can send (the network-failure 503 paths are outside the
model). -/
inductive BidOutcome where
  | accepted (amount : Money)
  | auctionNotFound
  | auctionClosed
  | bidTooLow
  | balanceCheckFailed
  | insufficientFunds
  | deductFailed
deriving Repr, DecidableEq

/-- HTTP status code the handler sends for each outcome, read off the
`http.Error` / success calls in `placeBidHandler`. -/
def BidOutcome.httpStatus : BidOutcome → Nat
  | .accepted _ => 200
  | .auctionNotFound => 404
  | .auctionClosed => 403
  | .bidTooLow => 400
  | .balanceCheckFailed => 500
  | .insufficientFunds => 402
  | .deductFailed => 500

/-- Whether an outcome is an acceptance. -/
def BidOutcome.isAccepted : BidOutcome → Bool
  | .accepted _ => true
  | _ => false

/-- A bid that has passed validation and fund deduction but has not yet been
committed: `snapshot` is the auction record read under the read-lock at the
start of `placeBidHandler` (line `auction, exists := auctions[newBid.AuctionID]`). -/
structure PendingBid where
  userID : Nat
  auctionID : Nat
  amount : Money
  snapshot : Auction
deriving Repr, DecidableEq

/-- First phase of `placeBidHandler` (everything before the final
`auctionMutex.Lock()`): read the auction under the read-lock, reject
`Auction not found` (404), `Auction has ended` (403, when `now` is strictly
after `EndTime`), `Bid must be higher than current bid` (400, when
`amount ≤ CurrentBid`); then, with no auction lock held, call the user
service to check the balance and to deduct the amount.  On success it
returns the pending bid (carrying the snapshot read at the start) and the
state after the deduction. -/
def placeBidValidate (uid aid : Nat) (amount : Money) (now : Instant) (s : SystemState) :
    Except BidOutcome (PendingBid × SystemState) :=
  match s.auctions aid with
  | none => .error .auctionNotFound
  | some auction =>
    if auction.endTime < now then .error .auctionClosed
    else if amount ≤ auction.currentBid then .error .bidTooLow
    else
      match checkBalanceHandler uid amount s.users with
      | none => .error .balanceCheckFailed
      | some (canBid, _) =>
        if !canBid then .error .insufficientFunds
        else
          match updateBalanceHandler uid (-amount) s.users with
          | (.ok _, users2) => .ok (⟨uid, aid, amount, auction⟩, { s with users := users2 })
          | (_, _) => .error .deductFailed

/-- Second phase of `placeBidHandler` (the block under the final
`auctionMutex.Lock()`): unconditionally write back the snapshot with
`CurrentBid` replaced by the bid amount, and append the bid (timestamped
`now`) to the auction's ledger.  No condition is re-checked here. -/
def placeBidCommit (p : PendingBid) (now : Instant) (s : SystemState) : SystemState :=
  let a : Auction := { p.snapshot with currentBid := p.amount }
  { s with
    auctions := fun k => if k = p.auctionID then some a else s.auctions k
    bids := fun k =>
      if k = p.auctionID then s.bids p.auctionID ++ [⟨p.userID, p.auctionID, p.amount, now⟩]
      else s.bids k }

/-- The whole `POST /auctions/bid` handler run sequentially (no interleaving
with other requests): validation phase followed immediately by the commit
phase. -/
def placeBidHandler (uid aid : Nat) (amount : Money) (now : Instant) (s : SystemState) :
    BidOutcome × SystemState :=
  match placeBidValidate uid aid amount now s with
  | .error o => (o, s)
  | .ok (p, s2) => (.accepted amount, placeBidCommit p now s2)

/-- One bid request as submitted to `POST /auctions/bid`. -/
structure BidRequest where
  userID : Nat
  auctionID : Nat
  amount : Money
  time : Instant
deriving Repr, DecidableEq

/-- Sequential execution of a list of bid requests: runs `placeBidHandler`
for each in order and records, in acceptance order, the `(auctionId, price)`
pair of every accepted bid. -/
def runBids : List BidRequest → SystemState → SystemState × List (Nat × Money)
  | [], s => (s, [])
  | r :: rs, s =>
    let step := placeBidHandler r.userID r.auctionID r.amount r.time s
    let rest := runBids rs step.2
    match step.1 with
    | .accepted amt => (rest.1, (r.auctionID, amt) :: rest.2)
    | _ => rest

/-- The committed current-price values of one auction, in commit order. -/
def committedPrices (aid : Nat) (evs : List (Nat × Money)) : List Money :=
  (evs.filter (fun e => e.1 = aid)).map Prod.snd

/-- A list of prices is strictly increasing. -/
def strictIncr : List Money → Prop
  | [] => True
  | [_] => True
  | a :: b :: t => a < b ∧ strictIncr (b :: t)

/-- Concrete state used for the race traces: auction 1 is open (closes at
time 1000) at current price 50; two users with ample funds. -/
def raceState : SystemState :=
  { auctions := fun k => if k = 1 then some ⟨1, "vase", 9, 0, 1000, 50, 50, 0⟩ else none
    bids := fun _ => []
    users := fun k =>
      if k = 1 then some ⟨1, "alice", "alice@example.com", 1000⟩
      else if k = 2 then some ⟨2, "bob", "bob@example.com", 1000⟩ else none }

/-- An interleaved execution of two concurrent `placeBidHandler` requests that
the code's locking permits: the handler holds no lock between its read-lock
validation phase and its write-lock commit phase, so both requests (user 1
bidding 150, user 2 bidding 100) can pass validation and deduct funds before
either commits; the commits then run in the same order.  Returns the states
after the first and after the second commit (or `none` had a validation
failed). -/
def raceFinal : Option (SystemState × SystemState) :=
  match placeBidValidate 1 1 150 10 raceState with
  | .error _ => none
  | .ok (p1, s1) =>
    match placeBidValidate 2 1 100 11 s1 with
    | .error _ => none
    | .ok (p2, s2) =>
      let s3 := placeBidCommit p1 12 s2
      some (s3, placeBidCommit p2 13 s3)

/-- Concrete state for the end-to-end scenario: auction 1 opens at price 100
and closes at time 1000; user 1 has balance 150, user 2 has balance 50. -/
def demoState : SystemState :=
  { auctions := fun k => if k = 1 then some ⟨1, "vase", 9, 0, 1000, 100, 100, 0⟩ else none
    bids := fun _ => []
    users := fun k =>
      if k = 1 then some ⟨1, "alice", "alice@example.com", 150⟩
      else if k = 2 then some ⟨2, "bob", "bob@example.com", 50⟩ else none }

/-- End-to-end scenario step 1: user 1 bids 120 on auction 1. -/
def demoStep1 : BidOutcome × SystemState := placeBidHandler 1 1 120 10 demoState

/-- End-to-end scenario step 2: user 1 then bids 110 on auction 1. -/
def demoStep2 : BidOutcome × SystemState := placeBidHandler 1 1 110 20 demoStep1.2

/-- End-to-end scenario step 3: user 2 (balance 50) then bids 130. -/
def demoStep3 : BidOutcome × SystemState := placeBidHandler 2 1 130 30 demoStep2.2

/-- User table with a single user of balance 300, for exercising repeated
balance updates. -/
def usersTwice : Nat → Option User :=
  fun k => if k = 1 then some ⟨1, "carol", "carol@example.com", 300⟩ else none

/-- User table with a single user of balance 50, for exercising the
non-negativity guard of `updateBalanceHandler`. -/
def usersDave : Nat → Option User :=
  fun k => if k = 1 then some ⟨1, "dave", "dave@example.com", 50⟩ else none

/-- Inversion of a successful validation phase: it succeeds exactly when the
auction exists, is not strictly past its end time, the amount strictly
exceeds the snapshot's current price, and the user exists with sufficient
balance; the pending bid carries the snapshot, and the auction table and
ledger are untouched by this phase. -/
theorem placeBidValidate_ok {uid aid : Nat} {amount : Money} {now : Instant}
    {s : SystemState} {p : PendingBid} {s2 : SystemState}
    (h : placeBidValidate uid aid amount now s = .ok (p, s2)) :
    ∃ a, s.auctions aid = some a ∧ ¬ a.endTime < now ∧ a.currentBid < amount ∧
      (∃ u, s.users uid = some u ∧ amount ≤ u.balance) ∧
      p = ⟨uid, aid, amount, a⟩ ∧ s2.auctions = s.auctions ∧ s2.bids = s.bids := by
  unfold placeBidValidate checkBalanceHandler at h
  split at h
  · exact absurd h (by simp)
  · rename_i a ha
    split at h
    · exact absurd h (by simp)
    · rename_i hclosed
      split at h
      · exact absurd h (by simp)
      · rename_i hlow
        split at h
        · exact absurd h (by simp)
        · rename_i r canBid bal hr
          split at h
          · exact absurd h (by simp)
          · rename_i hcan
            split at h
            · rename_i res users2 hupd
              cases h
              simp only [Bool.not_eq_true', Bool.not_eq_false] at hcan
              refine ⟨a, ha, hclosed, not_le.mp hlow, ?_, rfl, rfl, rfl⟩
              cases hu : s.users uid with
              | none => rw [hu] at hr; exact absurd hr (by simp)
              | some u =>
                rw [hu] at hr
                simp only [Option.some.injEq, Prod.mk.injEq] at hr
                exact ⟨u, rfl, of_decide_eq_true (hr.1.trans hcan)⟩
            · exact absurd h (by simp)

/-- A failed validation phase never reports an acceptance. -/
theorem placeBidValidate_error_not_accepted {uid aid : Nat} {amount : Money}
    {now : Instant} {s : SystemState} {o : BidOutcome}
    (h : placeBidValidate uid aid amount now s = .error o) : o.isAccepted = false := by
  unfold placeBidValidate at h
  repeat' split at h
  all_goals first
  | (cases h; rfl)
  | (exact absurd h (by simp))

/-- A sequential request that is not accepted leaves the whole system state
unchanged. -/
theorem placeBidHandler_not_accepted {uid aid : Nat} {amount : Money}
    {now : Instant} {s : SystemState}
    (h : (placeBidHandler uid aid amount now s).1.isAccepted = false) :
    (placeBidHandler uid aid amount now s).2 = s := by
  unfold placeBidHandler at h ⊢
  cases hv : placeBidValidate uid aid amount now s with
  | error o => rfl
  | ok ps =>
    rw [hv] at h
    simp [BidOutcome.isAccepted] at h

/-- Inversion of an accepted sequential request: all the eligibility
conditions held on the pre-state, the target auction's record was replaced
with the snapshot carrying the new price, exactly one bid was appended to
the target ledger, and every other auction and ledger is unchanged. -/
theorem placeBidHandler_accepted {uid aid : Nat} {amount amt2 : Money}
    {now : Instant} {s : SystemState}
    (h : (placeBidHandler uid aid amount now s).1 = .accepted amt2) :
    amt2 = amount ∧
    ∃ a, s.auctions aid = some a ∧ ¬ a.endTime < now ∧ a.currentBid < amount ∧
      (∃ u, s.users uid = some u ∧ amount ≤ u.balance) ∧
      (placeBidHandler uid aid amount now s).2.auctions aid
        = some { a with currentBid := amount } ∧
      (∀ k, k ≠ aid → (placeBidHandler uid aid amount now s).2.auctions k = s.auctions k) ∧
      (placeBidHandler uid aid amount now s).2.bids aid
        = s.bids aid ++ [⟨uid, aid, amount, now⟩] ∧
      (∀ k, k ≠ aid → (placeBidHandler uid aid amount now s).2.bids k = s.bids k) := by
  unfold placeBidHandler at h ⊢
  cases hv : placeBidValidate uid aid amount now s with
  | error o =>
    rw [hv] at h
    have h2 : o = BidOutcome.accepted amt2 := h
    have := placeBidValidate_error_not_accepted hv
    rw [h2] at this
    simp [BidOutcome.isAccepted] at this
  | ok ps =>
    obtain ⟨p, s2⟩ := ps
    rw [hv] at h
    obtain ⟨a, ha, hcl, hlt, hfund, hp, hau, hbi⟩ := placeBidValidate_ok hv
    cases h
    subst hp
    refine ⟨rfl, a, ha, hcl, hlt, hfund, ?_, ?_, ?_, ?_⟩
    · simp [placeBidCommit]
    · intro k hk
      simp [placeBidCommit, hk, hau]
    · simp [placeBidCommit, hbi]
    · intro k hk
      simp [placeBidCommit, hk, hbi]

/-- An outcome flagged as accepted is an `accepted` constructor. -/
theorem isAccepted_true {o : BidOutcome} (h : o.isAccepted = true) :
    ∃ amt, o = .accepted amt := by
  cases o with
  | accepted amt => exact ⟨amt, rfl⟩
  | auctionNotFound => simp [BidOutcome.isAccepted] at h
  | auctionClosed => simp [BidOutcome.isAccepted] at h
  | bidTooLow => simp [BidOutcome.isAccepted] at h
  | balanceCheckFailed => simp [BidOutcome.isAccepted] at h
  | insufficientFunds => simp [BidOutcome.isAccepted] at h
  | deductFailed => simp [BidOutcome.isAccepted] at h

/-- A rejected request contributes nothing to a sequential run. -/
theorem runBids_cons_not_accepted {r : BidRequest} {rs : List BidRequest} {s : SystemState}
    (h : (placeBidHandler r.userID r.auctionID r.amount r.time s).1.isAccepted = false) :
    runBids (r :: rs) s = runBids rs s := by
  have hs := placeBidHandler_not_accepted h
  simp only [runBids]
  cases hb : (placeBidHandler r.userID r.auctionID r.amount r.time s).1 with
  | accepted amt => rw [hb] at h; simp [BidOutcome.isAccepted] at h
  | auctionNotFound => rw [hs]
  | auctionClosed => rw [hs]
  | bidTooLow => rw [hs]
  | balanceCheckFailed => rw [hs]
  | insufficientFunds => rw [hs]
  | deductFailed => rw [hs]

/-- An accepted request prepends its `(auctionId, price)` event to the run. -/
theorem runBids_cons_accepted {r : BidRequest} {rs : List BidRequest} {s : SystemState}
    {amt : Money}
    (h : (placeBidHandler r.userID r.auctionID r.amount r.time s).1 = .accepted amt) :
    runBids (r :: rs) s =
      ((runBids rs (placeBidHandler r.userID r.auctionID r.amount r.time s).2).1,
        (r.auctionID, amt)
          :: (runBids rs (placeBidHandler r.userID r.auctionID r.amount r.time s).2).2) := by
  simp only [runBids]
  rw [h]

/-- Unfolding equation for `committedPrices` on a cons cell. -/
theorem committedPrices_cons (aid k : Nat) (amt : Money) (evs : List (Nat × Money)) :
    committedPrices aid ((k, amt) :: evs)
      = if k = aid then amt :: committedPrices aid evs else committedPrices aid evs := by
  simp only [committedPrices, List.filter]
  by_cases hk : k = aid <;> simp [hk]

/-- Every price committed for an auction during a sequential run strictly
exceeds the auction's current price at the start of the run. -/
theorem runBids_gt {aid : Nat} (rs : List BidRequest) :
    ∀ (s : SystemState) (a : Auction), s.auctions aid = some a →
      ∀ q ∈ committedPrices aid (runBids rs s).2, a.currentBid < q := by
  induction rs with
  | nil =>
    intro s a _ q hq
    simp [runBids, committedPrices] at hq
  | cons r rs ih =>
    intro s a ha q hq
    cases hacc : (placeBidHandler r.userID r.auctionID r.amount r.time s).1.isAccepted
    case false =>
      rw [runBids_cons_not_accepted hacc] at hq
      exact ih s a ha q hq
    case true =>
      obtain ⟨amt, hb⟩ := isAccepted_true hacc
      obtain ⟨heq, a0, ha0, -, hlt, -, hset, hframe, -, -⟩ := placeBidHandler_accepted hb
      rw [runBids_cons_accepted hb, committedPrices_cons] at hq
      by_cases hk : r.auctionID = aid
      · subst hk
        rw [if_pos rfl] at hq
        rw [ha] at ha0
        injection ha0 with ha0
        subst ha0
        rcases List.mem_cons.mp hq with rfl | hq
        · exact heq ▸ hlt
        · have := ih _ _ hset q hq
          simp only at this
          exact lt_trans hlt this
      · rw [if_neg hk] at hq
        have hfr : (placeBidHandler r.userID r.auctionID r.amount r.time s).2.auctions aid
            = some a := by
          rw [hframe aid (fun he => hk he.symm)]
          exact ha
        exact ih _ a hfr q hq

/-- Prepending an element below every member of a strictly increasing list
keeps it strictly increasing. -/
theorem strictIncr_cons {x : Money} {l : List Money}
    (h1 : ∀ q ∈ l, x < q) (h2 : strictIncr l) : strictIncr (x :: l) := by
  cases l with
  | nil => trivial
  | cons b t => exact ⟨h1 b (List.mem_cons_self b t), h2⟩

/-- A request on a missing auction is rejected with `Auction not found` and
the state is unchanged. -/
theorem placeBidHandler_notFound {uid aid : Nat} {amount : Money} {now : Instant}
    {s : SystemState} (h : s.auctions aid = none) :
    placeBidHandler uid aid amount now s = (.auctionNotFound, s) := by
  simp [placeBidHandler, placeBidValidate, h]

/-- A request strictly after the closing time is rejected with
`Auction has ended` and the state is unchanged. -/
theorem placeBidHandler_closed {uid aid : Nat} {amount : Money} {now : Instant}
    {s : SystemState} {a : Auction} (ha : s.auctions aid = some a)
    (hlate : a.endTime < now) :
    placeBidHandler uid aid amount now s = (.auctionClosed, s) := by
  simp [placeBidHandler, placeBidValidate, ha, hlate]

/-- A request whose amount does not exceed the current price is rejected with
`Bid must be higher than current bid` and the state is unchanged. -/
theorem placeBidHandler_tooLow {uid aid : Nat} {amount : Money} {now : Instant}
    {s : SystemState} {a : Auction} (ha : s.auctions aid = some a)
    (hopen : ¬ a.endTime < now) (hle : amount ≤ a.currentBid) :
    placeBidHandler uid aid amount now s = (.bidTooLow, s) := by
  simp [placeBidHandler, placeBidValidate, ha, hopen, hle]

/-- C1 counterexample.  The claim says the commit operation commits only when
(among other conditions) the bid amount strictly exceeds the auction's current
price and the caller's expected version matches the stored version, and
otherwise rejects without mutation.  In the interleaved execution `raceFinal`,
which the code's locking permits, after the first commit the stored current
price of auction 1 is 150, yet the second pending bid of 100 — an amount that
does not exceed the stored price, with no version to check (the record has no
version field) — is still committed and overwrites the record, lowering the
stored price to 100 instead of being rejected. -/
theorem interleaved_commit_mutates_despite_lower_amount :
    (raceFinal.map fun st => ((st.1.auctions 1).map Auction.currentBid,
                              (st.2.auctions 1).map Auction.currentBid))
      = some (some 150, some 100)
    ∧ ¬ ((150 : Money) < 100) := by decide

/-- C1 (amended).  For a single request run sequentially (validation phase
immediately followed by the commit phase, with no interleaved request):
`placeBidHandler` rejects a missing auction with `auctionNotFound`, an auction
strictly past its end time with `auctionClosed`, a non-exceeding amount with
`bidTooLow`, a stored bidder whose balance is below the amount with
`insufficientFunds`, and a missing bidder with the 500 `balanceCheckFailed`
reply; it accepts exactly when the auction exists, is not strictly past its
end time, the amount strictly exceeds the current price read at validation,
and the bidder exists with balance at least the amount; and every
non-accepted request leaves the system state unmutated.  No version check
exists: the eligibility conditions are checked against the snapshot read at
validation time, not re-validated at commit time. -/
theorem placeBid_commit_conditions_sequential (uid aid : Nat) (amount : Money)
    (now : Instant) (s : SystemState) :
    (s.auctions aid = none → placeBidHandler uid aid amount now s = (.auctionNotFound, s))
    ∧ (∀ a, s.auctions aid = some a → a.endTime < now →
        placeBidHandler uid aid amount now s = (.auctionClosed, s))
    ∧ (∀ a, s.auctions aid = some a → ¬ a.endTime < now → amount ≤ a.currentBid →
        placeBidHandler uid aid amount now s = (.bidTooLow, s))
    ∧ (∀ a, s.auctions aid = some a → ¬ a.endTime < now → a.currentBid < amount →
        s.users uid = none →
        placeBidHandler uid aid amount now s = (.balanceCheckFailed, s))
    ∧ (∀ a u, s.auctions aid = some a → ¬ a.endTime < now → a.currentBid < amount →
        s.users uid = some u → u.balance < amount →
        placeBidHandler uid aid amount now s = (.insufficientFunds, s))
    ∧ (∀ a u, s.auctions aid = some a → ¬ a.endTime < now → a.currentBid < amount →
        s.users uid = some u → amount ≤ u.balance →
        (placeBidHandler uid aid amount now s).1 = .accepted amount)
    ∧ (∀ amt2, (placeBidHandler uid aid amount now s).1 = .accepted amt2 →
        amt2 = amount ∧
        ∃ a, s.auctions aid = some a ∧ ¬ a.endTime < now ∧ a.currentBid < amount ∧
          ∃ u, s.users uid = some u ∧ amount ≤ u.balance)
    ∧ ((placeBidHandler uid aid amount now s).1.isAccepted = false →
        (placeBidHandler uid aid amount now s).2 = s) := by
  refine ⟨?_, ?_, ?_, ?_, ?_, ?_, ?_, ?_⟩
  · exact placeBidHandler_notFound
  · exact fun a ha hlate => placeBidHandler_closed ha hlate
  · exact fun a ha hopen hle => placeBidHandler_tooLow ha hopen hle
  · intro a ha hopen hlt hu
    simp [placeBidHandler, placeBidValidate, checkBalanceHandler, ha, hopen, hu,
      not_le.mpr hlt]
  · intro a u ha hopen hlt hu hbal
    simp [placeBidHandler, placeBidValidate, checkBalanceHandler, ha, hopen, hu,
      not_le.mpr hlt, not_le.mpr hbal]
  · intro a u ha hopen hlt hu hbal
    have hnn : ¬ (u.balance + -amount < 0) := by
      simp only [not_lt]
      linarith
    simp [placeBidHandler, placeBidValidate, checkBalanceHandler, updateBalanceHandler,
      ha, hopen, hu, not_le.mpr hlt, hbal, hnn]
  · intro amt2 h
    obtain ⟨heq, a, ha, hcl, hlt, hfund, -⟩ := placeBidHandler_accepted h
    exact ⟨heq, a, ha, hcl, hlt, hfund⟩
  · exact placeBidHandler_not_accepted

/-- C1 witness: the amended theorem applied at concrete inputs — a bid on a
missing auction, a too-low bid, a bid after closing, an underfunded bid and a
fully eligible bid, each with its specific outcome (and an unchanged state on
the rejections). -/
theorem placeBid_commit_conditions_sequential_witness :
    placeBidHandler 1 99 60 10 raceState = (.auctionNotFound, raceState)
    ∧ placeBidHandler 1 1 40 10 raceState = (.bidTooLow, raceState)
    ∧ placeBidHandler 1 1 60 2000 raceState = (.auctionClosed, raceState)
    ∧ placeBidHandler 7 1 60 10 raceState = (.balanceCheckFailed, raceState)
    ∧ placeBidHandler 2 1 130 10 demoState = (.insufficientFunds, demoState)
    ∧ (placeBidHandler 1 1 120 10 demoState).1 = .accepted 120 := by
  refine ⟨?_, ?_, ?_, ?_, ?_, ?_⟩
  · exact (placeBid_commit_conditions_sequential 1 99 60 10 raceState).1 rfl
  · exact (placeBid_commit_conditions_sequential 1 1 40 10 raceState).2.2.1
      ⟨1, "vase", 9, 0, 1000, 50, 50, 0⟩ rfl (by decide) (by decide)
  · exact (placeBid_commit_conditions_sequential 1 1 60 2000 raceState).2.1
      ⟨1, "vase", 9, 0, 1000, 50, 50, 0⟩ rfl (by decide)
  · exact (placeBid_commit_conditions_sequential 7 1 60 10 raceState).2.2.2.1
      ⟨1, "vase", 9, 0, 1000, 50, 50, 0⟩ rfl (by decide) (by decide) rfl
  · exact (placeBid_commit_conditions_sequential 2 1 130 10 demoState).2.2.2.2.1
      ⟨1, "vase", 9, 0, 1000, 100, 100, 0⟩ ⟨2, "bob", "bob@example.com", 50⟩
      rfl (by decide) (by decide) rfl (by decide)
  · exact (placeBid_commit_conditions_sequential 1 1 120 10 demoState).2.2.2.2.2.1
      ⟨1, "vase", 9, 0, 1000, 100, 100, 0⟩ ⟨1, "alice", "alice@example.com", 150⟩
      rfl (by decide) (by decide) rfl (by decide)

/-- C2 counterexample.  In the interleaved execution `raceFinal` the
successive committed current-price values of auction 1 are 150 and then 100:
the second accepted bid sets the current price to 100 although the price
stored at the moment of its commit is 150, so the committed price sequence
[150, 100] is not strictly increasing. -/
theorem interleaved_committed_prices_not_strictIncr :
    (raceFinal.map fun st => ((st.1.auctions 1).map Auction.currentBid,
                              (st.2.auctions 1).map Auction.currentBid))
      = some (some 150, some 100)
    ∧ ¬ strictIncr [150, 100] := by
  refine ⟨by decide, fun h => absurd h.1 (by decide)⟩

/-- C2 (amended).  When bid requests execute sequentially — each request's
validation and commit run with no other request interleaved between them —
the sequence of committed current-price values of every auction is strictly
increasing. -/
theorem sequential_committed_prices_strictIncr (rs : List BidRequest) (aid : Nat)
    (s : SystemState) : strictIncr (committedPrices aid (runBids rs s).2) := by
  induction rs generalizing s with
  | nil => trivial
  | cons r rs ih =>
    cases hacc : (placeBidHandler r.userID r.auctionID r.amount r.time s).1.isAccepted
    case false =>
      rw [runBids_cons_not_accepted hacc]
      exact ih s
    case true =>
      obtain ⟨amt, hb⟩ := isAccepted_true hacc
      obtain ⟨heq, a0, ha0, -, hlt, -, hset, -, -, -⟩ := placeBidHandler_accepted hb
      rw [runBids_cons_accepted hb, committedPrices_cons]
      by_cases hk : r.auctionID = aid
      · subst hk
        rw [if_pos rfl]
        apply strictIncr_cons
        · intro q hq
          have hgt := runBids_gt rs _ _ hset q hq
          simp only at hgt
          exact heq ▸ hgt
        · exact ih _
      · rw [if_neg hk]
        exact ih _

/-- C3 — the code evaluated at the failing input.  The reservation request of
the code is `PUT /users/update_balance {user_id, amount}`; its wire format and
the stored state carry no correlation id at all, so resubmitting the identical
request (the retry case of the claim) applies the debit again: starting from
balance 300, one request for −120 leaves 180, and the identical second request
leaves 60 — not the 180 that idempotence would require. -/
theorem repeated_balance_update_debits_twice :
    ((updateBalanceHandler 1 (-120) usersTwice).2 1).map User.balance = some 180
    ∧ (((updateBalanceHandler 1 (-120)
          (updateBalanceHandler 1 (-120) usersTwice).2).2) 1).map User.balance = some 60
    ∧ (60 : Money) ≠ 180 := by decide

/-- C4 counterexample.  The claim says a bid at a time equal to the closing
time is rejected with `AuctionClosed`.  The code uses Go's strict
`time.Now().After(EndTime)`, so in `demoState` (auction 1 closes at time
1000) a sufficient bid of 120 submitted exactly at time 1000 is accepted and
mutates the price to 120 instead of being rejected. -/
theorem bid_at_exact_closing_time_accepted :
    (demoState.auctions 1).map Auction.endTime = some 1000
    ∧ (placeBidHandler 1 1 120 1000 demoState).1 = .accepted 120
    ∧ ((placeBidHandler 1 1 120 1000 demoState).2.auctions 1).map Auction.currentBid
        = some 120 := by decide

/-- C4 (amended).  A bid submitted strictly later than the auction's closing
time is rejected with `auctionClosed` (HTTP 403), even when funds suffice
(no condition beyond existence and lateness is consulted), and the state is
unchanged; a bid at exactly the closing time is processed as if the auction
were open. -/
theorem bid_strictly_after_closing_rejected (uid aid : Nat) (amount : Money)
    (now : Instant) (s : SystemState) (a : Auction)
    (ha : s.auctions aid = some a) (hlate : a.endTime < now) :
    placeBidHandler uid aid amount now s = (.auctionClosed, s)
    ∧ BidOutcome.auctionClosed.httpStatus = 403 :=
  ⟨placeBidHandler_closed ha hlate, rfl⟩

/-- C4 witness: a rich bidder's bid at time 1001 on the auction closing at
1000 is rejected with `auctionClosed` and the state is unchanged. -/
theorem bid_strictly_after_closing_rejected_witness :
    placeBidHandler 2 1 500 1001 demoState = (.auctionClosed, demoState)
    ∧ BidOutcome.auctionClosed.httpStatus = 403 :=
  bid_strictly_after_closing_rejected 2 1 500 1001 demoState
    ⟨1, "vase", 9, 0, 1000, 100, 100, 0⟩ rfl (by decide)

/-- C5.  For an open auction (current time not strictly past the closing
time), a bid whose amount equals the auction's current price is rejected with
`bidTooLow` (HTTP 400) and the whole state is unchanged. -/
theorem bid_equal_to_current_price_rejected (uid aid : Nat) (now : Instant)
    (s : SystemState) (a : Auction) (ha : s.auctions aid = some a)
    (hopen : ¬ a.endTime < now) :
    placeBidHandler uid aid a.currentBid now s = (.bidTooLow, s)
    ∧ BidOutcome.bidTooLow.httpStatus = 400 :=
  ⟨placeBidHandler_tooLow ha hopen (le_refl _), rfl⟩

/-- C5 witness: a bid of exactly 100 on the open auction priced 100 is
rejected with `bidTooLow` and the state is unchanged. -/
theorem bid_equal_to_current_price_rejected_witness :
    placeBidHandler 1 1 (100 : Money) 10 demoState = (.bidTooLow, demoState)
    ∧ BidOutcome.bidTooLow.httpStatus = 400 :=
  bid_equal_to_current_price_rejected 1 1 10 demoState
    ⟨1, "vase", 9, 0, 1000, 100, 100, 0⟩ rfl (by decide)

/-- C6.  A bid rejected for a validation reason — `auctionNotFound`,
`auctionClosed` or `bidTooLow` — produces no side effects: the resulting
state (auction table, bid ledger and user balances alike) is exactly the
input state. -/
theorem validation_rejection_no_side_effects (uid aid : Nat) (amount : Money)
    (now : Instant) (s : SystemState)
    (h : (placeBidHandler uid aid amount now s).1 = .auctionNotFound
       ∨ (placeBidHandler uid aid amount now s).1 = .auctionClosed
       ∨ (placeBidHandler uid aid amount now s).1 = .bidTooLow) :
    (placeBidHandler uid aid amount now s).2 = s := by
  apply placeBidHandler_not_accepted
  rcases h with h | h | h <;> rw [h] <;> rfl

/-- C6 witness: the too-low bid of step 2 of the end-to-end scenario leaves
the state of step 1 untouched. -/
theorem validation_rejection_no_side_effects_witness :
    (placeBidHandler 1 1 110 20 demoStep1.2).2 = demoStep1.2 :=
  validation_rejection_no_side_effects 1 1 110 20 demoStep1.2 (.inr (.inr (by decide)))

/-- C7 — the code evaluated at the failing input.  The `Auction` record,
mirroring the Go struct field for field, consists of exactly id, item,
sellerID, startTime, endTime, startBid, currentBid and buyNow: there is no
version counter.  Accordingly, after the accepted bid of 120 the stored
record of auction 1 is identical to the original except for `currentBid`;
no counter exists or is incremented. -/
theorem accepted_bid_changes_only_currentBid_no_version :
    demoState.auctions 1 = some ⟨1, "vase", 9, 0, 1000, 100, 100, 0⟩
    ∧ demoStep1.1 = .accepted 120
    ∧ demoStep1.2.auctions 1 = some ⟨1, "vase", 9, 0, 1000, 100, 120, 0⟩ := by decide

/-- C8.  End-to-end scenario on `demoState` (auction opens at price 100):
the bid of 120 from user 1 (balance 150) is accepted and the price becomes
120 (and the deduction leaves user 1 with balance 30); the subsequent bid of
110 is rejected with `bidTooLow`; the subsequent bid of 130 from user 2
(balance 50) is rejected with `insufficientFunds`, sent as HTTP 402; and the
auction's price after the whole sequence is still 120. -/
theorem end_to_end_scenario :
    demoStep1.1 = .accepted 120
    ∧ (demoStep1.2.auctions 1).map Auction.currentBid = some 120
    ∧ (demoStep1.2.users 1).map User.balance = some 30
    ∧ demoStep2.1 = .bidTooLow
    ∧ demoStep3.1 = .insufficientFunds
    ∧ BidOutcome.insufficientFunds.httpStatus = 402
    ∧ (demoStep3.2.auctions 1).map Auction.currentBid = some 120 := by decide

/-- C9.  An accepted bid replaces the target auction's record with the same
record except for `currentBid` (so id, item, seller, opening and closing
times, opening price and buy-now are untouched), appends exactly one bid to
that auction's ledger, and leaves every other auction's record and ledger
unchanged. -/
theorem accepted_bid_frame (uid aid : Nat) (amount : Money) (now : Instant)
    (s : SystemState) (a : Auction) (ha : s.auctions aid = some a)
    (h : (placeBidHandler uid aid amount now s).1 = .accepted amount) :
    (placeBidHandler uid aid amount now s).2.auctions aid
      = some { a with currentBid := amount }
    ∧ (placeBidHandler uid aid amount now s).2.bids aid
      = s.bids aid ++ [⟨uid, aid, amount, now⟩]
    ∧ ∀ k, k ≠ aid →
        (placeBidHandler uid aid amount now s).2.auctions k = s.auctions k
        ∧ (placeBidHandler uid aid amount now s).2.bids k = s.bids k := by
  obtain ⟨-, a0, ha0, -, -, -, hset, hfrA, hbid, hfrB⟩ := placeBidHandler_accepted h
  rw [ha] at ha0
  injection ha0 with ha0
  subst ha0
  exact ⟨hset, hbid, fun k hk => ⟨hfrA k hk, hfrB k hk⟩⟩

/-- C9 witness: the frame theorem applied to the accepted bid of the
end-to-end scenario — only auction 1's price and ledger change, auction 2's
entries do not. -/
theorem accepted_bid_frame_witness :
    demoStep1.2.auctions 1 = some ⟨1, "vase", 9, 0, 1000, 100, 120, 0⟩
    ∧ demoStep1.2.bids 1 = [⟨1, 1, 120, 10⟩]
    ∧ demoStep1.2.auctions 2 = demoState.auctions 2
    ∧ demoStep1.2.bids 2 = demoState.bids 2 := by
  have h := accepted_bid_frame 1 1 120 10 demoState
    ⟨1, "vase", 9, 0, 1000, 100, 100, 0⟩ rfl (by decide)
  exact ⟨h.1, h.2.1, (h.2.2 2 (by decide)).1, (h.2.2 2 (by decide)).2⟩

/-- C10.  The balance-update operation preserves non-negativity: when the
target user's stored balance plus the requested (possibly negative) amount
would go below zero, the request is rejected with `Insufficient funds` and
the user table is returned unchanged; and every user whose balance is
non-negative before the update has a non-negative balance after it. -/
theorem updateBalance_preserves_nonneg (uid : Nat) (amount : Money)
    (users : Nat → Option User) (u : User) (h : users uid = some u) :
    (u.balance + amount < 0 →
      updateBalanceHandler uid amount users = (.insufficientFunds, users))
    ∧ (∀ k v, users k = some v → 0 ≤ v.balance →
        ∀ v2, (updateBalanceHandler uid amount users).2 k = some v2 → 0 ≤ v2.balance) := by
  constructor
  · intro hneg
    simp [updateBalanceHandler, h, hneg]
  · intro k v hk hv v2 hv2
    simp only [updateBalanceHandler, h] at hv2
    by_cases hneg : u.balance + amount < 0
    · rw [if_pos hneg] at hv2
      simp only at hv2
      rw [hk] at hv2
      injection hv2 with hv2
      subst hv2
      exact hv
    · rw [if_neg hneg] at hv2
      simp only at hv2
      by_cases hku : k = uid
      · subst hku
        rw [if_pos rfl] at hv2
        injection hv2 with hv2
        subst hv2
        exact le_of_not_lt hneg
      · rw [if_neg hku] at hv2
        rw [hk] at hv2
        injection hv2 with hv2
        subst hv2
        exact hv

/-- C10 witness: with a stored balance of 50, a −120 update is rejected with
`insufficientFunds` leaving the table unchanged, and a −30 update leaves the
user's balance non-negative. -/
theorem updateBalance_preserves_nonneg_witness :
    updateBalanceHandler 1 (-120) usersDave = (.insufficientFunds, usersDave)
    ∧ (0 : Money) ≤ 50 + -30 := by
  constructor
  · exact (updateBalance_preserves_nonneg 1 (-120) usersDave
      ⟨1, "dave", "dave@example.com", 50⟩ rfl).1 (by decide)
  · exact (updateBalance_preserves_nonneg 1 (-30) usersDave
      ⟨1, "dave", "dave@example.com", 50⟩ rfl).2 1
      ⟨1, "dave", "dave@example.com", 50⟩ rfl (by decide)
      ⟨1, "dave", "dave@example.com", 50 + -30⟩ rfl
